import Mathlib

/-!
Verification of the battery energy-storage sizing optimiser
(`src/battery/models.py` and `src/battery/results_analysis.py`).

The linear-program construction is shallowly embedded: decision variables
become an inductive type `Var`, PuLP affine expressions become `LinExpr`
(an ordered coefficient list plus a constant, over `ℚ`), and each
`lpmodel += (constraint, label)` statement of `ScenarioManager.define_constraints`
becomes one `LpConstraint` value carrying the same label.  The solver is an
external collaborator, so `ScenarioManager.solve` is modelled as a function of
the status the solver reports.
-/

namespace EnergyStorage

/-- The decision variables of the LP: the two scalars `capacity` and `power`,
and the three time-indexed families `storagelevel`, `charge`, `discharge`
(`models.py`, `define_endogenous_variables`). -/
inductive Var where
  | capacity : Var
  | power : Var
  | level : ℕ → Var
  | charge : ℕ → Var
  | discharge : ℕ → Var
deriving DecidableEq

/-- A PuLP affine expression: an ordered list of (variable, coefficient)
pairs plus a constant term. -/
structure LinExpr where
  coeffs : List (Var × ℚ)
  const : ℚ
deriving DecidableEq

namespace LinExpr

/-- A bare `LpVariable` used as an expression. -/
def ofVar (v : Var) : LinExpr := ⟨[(v, 1)], 0⟩

/-- A numeric constant used as an expression. -/
def ofConst (c : ℚ) : LinExpr := ⟨[], c⟩

/-- Multiplication of an expression by a scalar (`c * e` in the Python source). -/
def scale (c : ℚ) (e : LinExpr) : LinExpr :=
  ⟨e.coeffs.map fun p => (p.1, c * p.2), c * e.const⟩

/-- Sum of two expressions. -/
def add (e₁ e₂ : LinExpr) : LinExpr := ⟨e₁.coeffs ++ e₂.coeffs, e₁.const + e₂.const⟩

/-- Difference of two expressions, as `e₁ + (-1) * e₂`. -/
def sub (e₁ e₂ : LinExpr) : LinExpr := add e₁ (scale (-1) e₂)

/-- Value of an expression under an assignment of rationals to the variables. -/
def eval (e : LinExpr) (a : Var → ℚ) : ℚ :=
  (e.coeffs.map fun p => a p.1 * p.2).sum + e.const

theorem eval_ofVar (v : Var) (a : Var → ℚ) : (ofVar v).eval a = a v := by
  simp [eval, ofVar]

theorem eval_ofConst (c : ℚ) (a : Var → ℚ) : (ofConst c).eval a = c := by
  simp [eval, ofConst]

theorem eval_add (e₁ e₂ : LinExpr) (a : Var → ℚ) :
    (add e₁ e₂).eval a = e₁.eval a + e₂.eval a := by
  simp [eval, add]
  ring

theorem sum_map_scale (a : Var → ℚ) (c : ℚ) (l : List (Var × ℚ)) :
    ((l.map fun p => (p.1, c * p.2)).map fun p => a p.1 * p.2).sum
      = c * (l.map fun p => a p.1 * p.2).sum := by
  induction l with
  | nil => simp
  | cons p l ih =>
    simp only [List.map_cons, List.sum_cons, ih]
    ring

theorem eval_scale (c : ℚ) (e : LinExpr) (a : Var → ℚ) :
    (scale c e).eval a = c * e.eval a := by
  simp only [eval, scale, sum_map_scale]
  ring

theorem eval_sub (e₁ e₂ : LinExpr) (a : Var → ℚ) :
    (sub e₁ e₂).eval a = e₁.eval a - e₂.eval a := by
  simp [sub, eval_add, eval_scale]
  ring

end LinExpr

/-- The comparison carried by a PuLP constraint. -/
inductive Sense where
  | le : Sense
  | eq : Sense
  | ge : Sense
deriving DecidableEq

/-- One labelled constraint registered on the problem, exactly as built by a
`self.lpmodel += (comparison, label)` statement. -/
structure LpConstraint where
  name : String
  lhs : LinExpr
  sense : Sense
  rhs : LinExpr
deriving DecidableEq

/-- Satisfaction of a constraint by an assignment. -/
def LpConstraint.sat (c : LpConstraint) (a : Var → ℚ) : Prop :=
  match c.sense with
  | .le => c.lhs.eval a ≤ c.rhs.eval a
  | .eq => c.lhs.eval a = c.rhs.eval a
  | .ge => c.lhs.eval a ≥ c.rhs.eval a

/-- PuLP solve statuses; `optimal` is Python status code `1`. -/
inductive LpStatus where
  | notSolved : LpStatus
  | optimal : LpStatus
  | infeasible : LpStatus
  | unbounded : LpStatus
  | undefined : LpStatus
deriving DecidableEq

/-- The built linear problem: name, minimisation objective, labelled
constraints in registration order, and the current solver status. -/
structure LpProblem where
  name : String
  objective : LinExpr
  constraints : List LpConstraint
  status : LpStatus

/-- The `Storage` dataclass of `models.py`. -/
structure Storage where
  efficiency : ℚ
  minimum_duration : ℚ
  capex_power : ℚ
  capex_capacity : ℚ

/-- The data of the `Renewables` class: installed capacity per technology
(a Python dict, i.e. an ordered association list with distinct keys) and the
per-technology capacity-factor profiles over the time index. -/
structure Renewables where
  capacities : List (String × ℚ)
  profiles : String → ℕ → ℚ

/-- The `Total` column of `Renewables.calculate_generation`: the row-wise sum
of the per-technology columns `profiles[name] * capacity`. -/
def Renewables.generation_Total (r : Renewables) (t : ℕ) : ℚ :=
  (r.capacities.map fun p => r.profiles p.1 t * p.2).sum

/-- The `Load` class: a capacity and a normalised profile. -/
structure Load where
  capacity : ℚ
  profile : ℕ → ℚ

/-- The derived absolute load series `self.load = capacity * profile`. -/
def Load.load (l : Load) (t : ℕ) : ℚ := l.capacity * l.profile t

/-- The `ScenarioInputs` dataclass (the `start_date` field is omitted: it is
only used for timestamp presentation in result extraction). -/
structure ScenarioInputs where
  name : String
  time_index : List ℕ
  renewables : Renewables
  load : Load
  storage : Storage

/-- Embeds `max(self.inputs.time_index)` of the Python source (Python `max` of a
nonempty list of naturals agrees with this fold). -/
def tMax (i : ScenarioInputs) : ℕ := i.time_index.foldl max 0

/-- The duration-floor constraint `capacity >= minimum_duration * power`. -/
def duration_constraint (i : ScenarioInputs) : LpConstraint :=
  ⟨"duration is greater than input minimum",
   .ofVar .capacity, .ge, .scale i.storage.minimum_duration (.ofVar .power)⟩

/-- The wrap-around balance
`level[0] == level[t_max] - discharge[t_max] + efficiency * charge[t_max]`. -/
def start_of_year_constraint (i : ScenarioInputs) : LpConstraint :=
  ⟨"storage level at start is determined by the end",
   .ofVar (.level 0), .eq,
   ((LinExpr.ofVar (.level (tMax i))).sub (.ofVar (.discharge (tMax i)))).add
     (.scale i.storage.efficiency (.ofVar (.charge (tMax i))))⟩

/-- The forward balance at step `t`:
`level[t+1] == level[t] - discharge[t] + efficiency * charge[t]`. -/
def storage_level_constraint (i : ScenarioInputs) (t : ℕ) : LpConstraint :=
  ⟨s!"storage level is determined by charge and discharge, and efficiency (t={t})",
   .ofVar (.level (t + 1)), .eq,
   ((LinExpr.ofVar (.level t)).sub (.ofVar (.discharge t))).add
     (.scale i.storage.efficiency (.ofVar (.charge t)))⟩

/-- The available-energy constraint `level[t] >= discharge[t]`. -/
def available_energy_constraint (t : ℕ) : LpConstraint :=
  ⟨s!"cannot dispatch more than available energy (t={t})",
   .ofVar (.level t), .ge, .ofVar (.discharge t)⟩

/-- Power envelope on charging: `charge[t] <= power`. -/
def charge_power_constraint (t : ℕ) : LpConstraint :=
  ⟨s!"storage charge is limited by power rating (t={t})",
   .ofVar (.charge t), .le, .ofVar .power⟩

/-- Power envelope on discharging: `discharge[t] <= power`. -/
def discharge_power_constraint (t : ℕ) : LpConstraint :=
  ⟨s!"storage discharge is limited by power rating (t={t})",
   .ofVar (.discharge t), .le, .ofVar .power⟩

/-- Energy envelope: `level[t] <= capacity`. -/
def level_capacity_constraint (t : ℕ) : LpConstraint :=
  ⟨s!"storage level cannot be higher then capacity (t={t})",
   .ofVar (.level t), .le, .ofVar .capacity⟩

/-- Service constraint:
`generation["Total"][t] + discharge[t] - charge[t] >= load[t]`. -/
def load_supplied_constraint (i : ScenarioInputs) (t : ℕ) : LpConstraint :=
  ⟨s!"load is supplied (t={t})",
   ((LinExpr.ofConst (i.renewables.generation_Total t)).add
       (.ofVar (.discharge t))).sub (.ofVar (.charge t)),
   .ge, .ofConst (i.load.load t)⟩

/-- The constraints contributed by the loop `for t in self.inputs.time_index[:-1]`:
a forward-balance and an available-energy constraint per step. -/
def forward_loop (i : ScenarioInputs) : List LpConstraint :=
  i.time_index.dropLast.flatMap fun t =>
    [storage_level_constraint i t, available_energy_constraint t]

/-- The constraints contributed by the loop `for t in self.inputs.time_index`:
two power-envelope constraints, the energy envelope, and the service
constraint per step. -/
def envelope_loop (i : ScenarioInputs) : List LpConstraint :=
  i.time_index.flatMap fun t =>
    [charge_power_constraint t, discharge_power_constraint t,
     level_capacity_constraint t, load_supplied_constraint i t]

/-- Embeds `ScenarioManager.define_constraints`: all constraints in registration
order. -/
def define_constraints (i : ScenarioInputs) : List LpConstraint :=
  [duration_constraint i, start_of_year_constraint i] ++ forward_loop i ++ envelope_loop i

/-- Embeds `ScenarioManager.define_objective_function`:
`capacity * capex_capacity + power * capex_power`. -/
def define_objective_function (i : ScenarioInputs) : LinExpr :=
  (LinExpr.scale i.storage.capex_capacity (.ofVar .capacity)).add
    (.scale i.storage.capex_power (.ofVar .power))

/-- The `ScenarioManager` state: inputs, name, the `solved_status` flag, and
the built problem. -/
structure ScenarioManager where
  inputs : ScenarioInputs
  name : String
  solved_status : Bool
  lpmodel : LpProblem

/-- Embeds `ScenarioManager.__init__`: sets the flag to `False` and builds the
problem (objective and constraints); the fresh problem's status is PuLP's
`LpStatusNotSolved`. -/
def mkScenarioManager (inputs : ScenarioInputs) : ScenarioManager :=
  { inputs := inputs
    name := inputs.name
    solved_status := false
    lpmodel :=
      { name := inputs.name
        objective := define_objective_function inputs
        constraints := define_constraints inputs
        status := .notSolved } }

/-- Embeds `ScenarioManager.solve`: the external solver stores the status it
reports on the problem, then the flag is set to `True` exactly when that
status is `optimal` (Python status code `1`); otherwise the flag is left
unchanged. -/
def ScenarioManager.solve (m : ScenarioManager) (st : LpStatus) : ScenarioManager :=
  let m' : ScenarioManager := { m with lpmodel := { m.lpmodel with status := st } }
  if st = .optimal then { m' with solved_status := true } else m'

/-- Embeds `ScenarioManager.verify_solve`: raises "Model has not solved" when the
problem's status is not `optimal`. -/
def ScenarioManager.verify_solve (m : ScenarioManager) : Except String Unit :=
  if m.lpmodel.status ≠ .optimal then .error "Model has not solved" else .ok ()

/-- A pandas table as an ordered list of named columns whose entries may be
missing (`none` models `NaN`); used for the missing-value checks of
`verify_inputs`, which inspect the stored `renewables.generation` table and
`load.load` series. -/
abbrev NaTable : Type := List (String × List (Option ℚ))

/-- Embeds `Series.mean()` with pandas' default `skipna=True`: the mean of the
present values, or `none` (`NaN`) when no value is present. -/
def seriesMean (xs : List (Option ℚ)) : Option ℚ :=
  let vs := xs.filterMap id
  if vs.length = 0 then none else some (vs.sum / vs.length)

/-- Float comparison `a < b` under NaN semantics: any comparison against
`NaN` is `False`. -/
def ltNaN : Option ℚ → Option ℚ → Bool
  | some a, some b => a < b
  | _, _ => false

/-- Embeds `series.isna().sum() != 0`: the series contains a missing value. -/
def seriesHasNa (xs : List (Option ℚ)) : Bool := xs.any fun x => x.isNone

/-- Embeds `table.isna().sum().sum() != 0`: some column contains a missing value. -/
def tableHasNa (g : NaTable) : Bool := g.any fun c => seriesHasNa c.2

/-- The `"Total"` column of a generation table. -/
def tableTotal (g : NaTable) : List (Option ℚ) := (g.lookup "Total").getD []

/-- Embeds whether `ScenarioManager.verify_inputs` raises (some assert fails) on a stored
generation table and load series: the asserts are `load.mean() <
generation["Total"].mean()`, `generation.isna().sum().sum() == 0` and
`load.isna().sum() == 0`, so the method raises exactly when the first
comparison is false (NaN comparisons are false) or a missing value is
present. -/
def verify_inputs_raises (generation : NaTable) (load : List (Option ℚ)) : Bool :=
  !(ltNaN (seriesMean load) (seriesMean (tableTotal generation)))
    || tableHasNa generation || seriesHasNa load

/-- Embeds `set(names) == set(capacities.keys())` for lists of strings. -/
def setEqB (a b : List String) : Bool := (a.all fun x => b.contains x) && (b.all fun x => a.contains x)

/-- Embeds `Renewables.calculate_generation`: asserts that the name set equals the
capacity keys and that `"Total"` is not a name, then builds one column per
capacity entry equal to `profiles[name] * capacity` and appends a `"Total"`
column holding the row-wise sum of those columns.  An `AssertionError` is
modelled as `Except.error`. -/
def calculate_generation (names : List String) (capacities : List (String × ℚ))
    (profiles : String → ℕ → ℚ) : Except String (List (String × (ℕ → ℚ))) :=
  if !(setEqB names (capacities.map Prod.fst)) then
    .error "AssertionError: set(names) == set(capacities.keys())"
  else if names.contains "Total" then
    .error "AssertionError: Total not in names"
  else
    let gen := capacities.map fun p => (p.1, fun t => profiles p.1 t * p.2)
    .ok (gen ++ [("Total", fun t => (gen.map fun c => c.2 t).sum)])

/-- Embeds `get_design_results` of `results_analysis.py`: asserts the manager's
`solved_status` flag, then returns the values of the variables named
`capacity` and `power`.  The per-variable values read back from the solver
are an external input (`var.value()`, `none` before a solve). -/
def get_design_results (m : ScenarioManager) (value : Var → Option ℚ) :
    Except String (List (String × Option ℚ)) :=
  if m.solved_status then
    .ok [("capacity", value Var.capacity), ("power", value Var.power)]
  else .error "AssertionError: scenario.solved_status"

/-- Embeds `get_operational_batteryflow_results` of `results_analysis.py`: reads
every time-indexed variable's value and reshapes them into a table sorted by
parameter then time step.  The source performs no solved-status check and
has no failure path of its own, so the embedding always returns `.ok`. -/
def get_operational_batteryflow_results (m : ScenarioManager) (value : Var → Option ℚ) :
    Except String (List (String × ℕ × Option ℚ)) :=
  .ok ((m.inputs.time_index.map fun t => ("charge", t, value (Var.charge t)))
    ++ (m.inputs.time_index.map fun t => ("discharge", t, value (Var.discharge t)))
    ++ (m.inputs.time_index.map fun t => ("storagelevel", t, value (Var.level t))))

/-- The feasible-scenario inputs of spec section 8: solar capacity 100 with a
constant unit profile, load capacity 50 with a constant 0.5 profile, storage
efficiency 0.9, minimum duration 2, unit capital costs, single time step. -/
def exStorage : Storage := ⟨9/10, 2, 1, 1⟩

def exRenewables : Renewables := ⟨[("Solar", 100)], fun _ _ => 1⟩

def exLoad : Load := ⟨50, fun _ => 1/2⟩

def exInputs : ScenarioInputs := ⟨"example", [0], exRenewables, exLoad, exStorage⟩

/-- The same scenario over two time steps. -/
def exInputs2 : ScenarioInputs := ⟨"example2", [0, 1], exRenewables, exLoad, exStorage⟩

/-! Helper lemmas. -/

theorem constraints_mk (i : ScenarioInputs) :
    (mkScenarioManager i).lpmodel.constraints = define_constraints i := rfl

theorem flatMap_length_const {α : Type} (l : List ℕ) (f : ℕ → List α) (k : ℕ)
    (h : ∀ t, (f t).length = k) : (l.flatMap f).length = k * l.length := by
  induction l with
  | nil => simp
  | cons t l ih =>
    simp only [List.flatMap_cons, List.length_append, List.length_cons, h, ih]
    ring

theorem dropLast_range (N : ℕ) : (List.range N).dropLast = List.range (N - 1) := by
  cases N with
  | zero => simp
  | succ n => rw [List.range_succ, List.dropLast_concat]; simp

theorem foldl_max_range (N : ℕ) : (List.range N).foldl max 0 = N - 1 := by
  induction N with
  | zero => simp
  | succ n ih =>
    rw [List.range_succ, List.foldl_append, ih]
    simp

/-- C5: the objective registered by the constructor is exactly
`capacity * capex_capacity + power * capex_power`: its value under any
assignment is that expression's value, with no other terms. -/
theorem objective_is_capex_only (i : ScenarioInputs) (a : Var → ℚ) :
    ((mkScenarioManager i).lpmodel.objective).eval a
      = a Var.capacity * i.storage.capex_capacity + a Var.power * i.storage.capex_power := by
  simp [mkScenarioManager, define_objective_function, LinExpr.eval_add,
    LinExpr.eval_scale, LinExpr.eval_ofVar]
  ring

/-- C6: after `solve` on a freshly constructed manager (whose flag is
false), the `solved_status` flag is true exactly when the solver reported
`optimal`; any other status leaves it false. -/
theorem solve_fresh_flag_iff_optimal (inputs : ScenarioInputs) (st : LpStatus) :
    ((mkScenarioManager inputs).solve st).solved_status = true ↔ st = .optimal := by
  cases st <;> simp [mkScenarioManager, ScenarioManager.solve]

/-- C10: the `solved_status` flag is monotone: `solve` is the only operation
writing it and it only ever assigns `true`, so once the flag is true any
sequence of further `solve` calls, whatever statuses the solver reports,
leaves it true. -/
theorem solved_flag_monotone (m : ScenarioManager) (sts : List LpStatus)
    (h : m.solved_status = true) :
    (sts.foldl ScenarioManager.solve m).solved_status = true := by
  induction sts generalizing m with
  | nil => simpa using h
  | cons st sts ih =>
    refine ih _ ?_
    by_cases hst : st = .optimal <;> simp [ScenarioManager.solve, hst, h]

/-- Witness for C10: a manager that has observed an optimal solve keeps its
flag after a later infeasible solve. -/
theorem solved_flag_monotone_witness :
    ((mkScenarioManager exInputs).solve .optimal).solved_status = true
    ∧ ([LpStatus.infeasible].foldl ScenarioManager.solve
        ((mkScenarioManager exInputs).solve .optimal)).solved_status = true :=
  ⟨rfl, solved_flag_monotone _ _ rfl⟩

/-- C7 counterexample: on a freshly built (never solved) manager the status
is not optimal, yet the operational battery-flow reader returns a result
table rather than failing: it performs no solved check. -/
theorem operational_reader_reads_unsolved :
    (mkScenarioManager exInputs).lpmodel.status ≠ .optimal
    ∧ get_operational_batteryflow_results (mkScenarioManager exInputs) (fun _ => none)
        = .ok [("charge", 0, none), ("discharge", 0, none), ("storagelevel", 0, none)] :=
  ⟨by decide, rfl⟩

/-- C7 (amended): `verify_solve` fails with the model-not-solved error
exactly when the last solve status is not optimal; the design-results reader
fails exactly when the `solved_status` flag is false; the operational
battery-flow reader performs no solved check and always returns. -/
theorem solve_state_errors (m : ScenarioManager) (value : Var → Option ℚ) :
    ((∃ e, m.verify_solve = .error e) ↔ m.lpmodel.status ≠ .optimal)
    ∧ ((∃ e, get_design_results m value = .error e) ↔ m.solved_status = false)
    ∧ (∃ r, get_operational_batteryflow_results m value = .ok r) := by
  refine ⟨?_, ?_, ⟨_, rfl⟩⟩
  · by_cases h : m.lpmodel.status = .optimal <;> simp [ScenarioManager.verify_solve, h]
  · by_cases h : m.solved_status <;> simp [get_design_results, h]

/-- C1 counterexample: for the single-step scenario the constructor
registers 6 constraints (the per-step loop adds four constraints: two power
envelopes, the energy envelope and the service constraint), not the claimed
`1 + 1 + 2*(N-1) + 3*N = 5`. -/
theorem constraint_count_claim_false :
    (mkScenarioManager exInputs).lpmodel.constraints.length
      ≠ 1 + 1 + 2 * (1 - 1) + 3 * 1 := by
  decide

/-- C1 (amended): for every scenario with `N = |time_index| ≥ 1` the number
of constraints registered on the built problem equals
`1 + 1 + 2*(N-1) + 4*N` (duration floor, wrap-around balance, the two
forward-balance/available-energy constraints for the first `N-1` steps, and
four per-step constraints — charge and discharge power envelopes, energy
envelope, and service — for all `N` steps). -/
theorem constraint_count (i : ScenarioInputs) (_h : 1 ≤ i.time_index.length) :
    (mkScenarioManager i).lpmodel.constraints.length
      = 1 + 1 + 2 * (i.time_index.length - 1) + 4 * i.time_index.length := by
  have hf : (forward_loop i).length = 2 * i.time_index.dropLast.length :=
    flatMap_length_const _ _ 2 fun t => rfl
  have he : (envelope_loop i).length = 4 * i.time_index.length :=
    flatMap_length_const _ _ 4 fun t => rfl
  rw [constraints_mk, define_constraints]
  simp only [List.length_append, List.length_cons, List.length_nil, hf, he,
    List.length_dropLast]
  try omega

/-- Witness for C1 (amended): the two-step scenario has
`1 + 1 + 2*1 + 4*2 = 12` constraints. -/
theorem constraint_count_witness :
    1 ≤ exInputs2.time_index.length
    ∧ (mkScenarioManager exInputs2).lpmodel.constraints.length
        = 1 + 1 + 2 * (exInputs2.time_index.length - 1) + 4 * exInputs2.time_index.length :=
  ⟨by decide, constraint_count exInputs2 (by decide)⟩

theorem wrap_ne_duration (i : ScenarioInputs) :
    start_of_year_constraint i ≠ duration_constraint i := by
  intro h
  have hname := congrArg LpConstraint.name h
  simp only [start_of_year_constraint, duration_constraint] at hname
  exact absurd hname (by decide)

theorem wrap_not_mem_forward (i : ScenarioInputs) :
    start_of_year_constraint i ∉ forward_loop i := by
  intro h
  rcases List.mem_flatMap.mp h with ⟨t, -, hmem⟩
  rcases List.mem_cons.mp hmem with h1 | h1
  · have hl := congrArg LpConstraint.lhs h1
    simp [start_of_year_constraint, storage_level_constraint, LinExpr.ofVar] at hl
  · rcases List.mem_singleton.mp h1 with h2
    have hs := congrArg LpConstraint.sense (h2 ▸ rfl : start_of_year_constraint i = available_energy_constraint t)
    simp [start_of_year_constraint, available_energy_constraint] at hs

theorem wrap_not_mem_envelope (i : ScenarioInputs) :
    start_of_year_constraint i ∉ envelope_loop i := by
  intro h
  rcases List.mem_flatMap.mp h with ⟨t, -, hmem⟩
  simp only [List.mem_cons, List.not_mem_nil, or_false] at hmem
  rcases hmem with h1 | h1 | h1 | h1
  · have hl := congrArg LpConstraint.lhs h1
    simp [start_of_year_constraint, charge_power_constraint, LinExpr.ofVar] at hl
  · have hl := congrArg LpConstraint.lhs h1
    simp [start_of_year_constraint, discharge_power_constraint, LinExpr.ofVar] at hl
  · have hs := congrArg LpConstraint.sense h1
    simp [start_of_year_constraint, level_capacity_constraint] at hs
  · have hs := congrArg LpConstraint.sense h1
    simp [start_of_year_constraint, load_supplied_constraint] at hs

/-- C2: for every scenario over a contiguous time index `0..N-1`, exactly one
registered constraint is the wrap-around balance, and it is the equality
`level[0] = level[t_max] - discharge[t_max] + efficiency * charge[t_max]`
with `t_max = N-1` the last step; for `time_index = [0]` it degenerates to
`discharge[0] = efficiency * charge[0]` and the forward-balance loop
contributes no constraints. -/
theorem wrap_around_unique (i : ScenarioInputs) (N : ℕ) (_hN : 1 ≤ N)
    (hidx : i.time_index = List.range N) :
    (mkScenarioManager i).lpmodel.constraints.count (start_of_year_constraint i) = 1
    ∧ (∀ a : Var → ℚ, (start_of_year_constraint i).sat a ↔
        a (Var.level 0) = a (Var.level (N - 1)) - a (Var.discharge (N - 1))
          + i.storage.efficiency * a (Var.charge (N - 1)))
    ∧ (i.time_index = [0] →
        (∀ a : Var → ℚ, (start_of_year_constraint i).sat a ↔
          a (Var.discharge 0) = i.storage.efficiency * a (Var.charge 0))
        ∧ forward_loop i = []) := by
  have htm : tMax i = N - 1 := by rw [tMax, hidx, foldl_max_range]
  refine ⟨?_, ?_, ?_⟩
  · rw [constraints_mk, define_constraints, List.count_append, List.count_append,
      List.count_eq_zero.mpr (wrap_not_mem_forward i),
      List.count_eq_zero.mpr (wrap_not_mem_envelope i)]
    simp [List.count_cons, wrap_ne_duration i]
  · intro a
    simp [LpConstraint.sat, start_of_year_constraint, htm, LinExpr.eval_add,
      LinExpr.eval_sub, LinExpr.eval_scale, LinExpr.eval_ofVar]
  · intro h0
    have hN1 : N = 1 := by
      have := congrArg List.length (hidx.symm.trans h0)
      simpa using this
    constructor
    · intro a
      simp [LpConstraint.sat, start_of_year_constraint, htm, hN1, LinExpr.eval_add,
        LinExpr.eval_sub, LinExpr.eval_scale, LinExpr.eval_ofVar]
      constructor <;> intro h <;> linarith
    · show i.time_index.dropLast.flatMap _ = []
      rw [h0]
      rfl

/-- Witness for C2: the single-step scenario. -/
theorem wrap_around_unique_witness :
    1 ≤ 1 ∧ exInputs.time_index = List.range 1
    ∧ ((mkScenarioManager exInputs).lpmodel.constraints.count
          (start_of_year_constraint exInputs) = 1
      ∧ (∀ a : Var → ℚ, (start_of_year_constraint exInputs).sat a ↔
          a (Var.level 0) = a (Var.level (1 - 1)) - a (Var.discharge (1 - 1))
            + exInputs.storage.efficiency * a (Var.charge (1 - 1)))
      ∧ (exInputs.time_index = [0] →
          (∀ a : Var → ℚ, (start_of_year_constraint exInputs).sat a ↔
            a (Var.discharge 0) = exInputs.storage.efficiency * a (Var.charge 0))
          ∧ forward_loop exInputs = [])) :=
  ⟨by decide, by decide, wrap_around_unique exInputs 1 (by decide) (by decide)⟩

/-- C3: for every scenario over a contiguous time index `0..N-1` and every
step `t` except the last, the built problem contains the forward balance
equality `level[t+1] = level[t] - discharge[t] + efficiency * charge[t]`,
with the efficiency multiplying only the charge term. -/
theorem forward_balance_present (i : ScenarioInputs) (N : ℕ)
    (hidx : i.time_index = List.range N) (t : ℕ) (ht : t + 1 < N) :
    ∃ c ∈ (mkScenarioManager i).lpmodel.constraints, ∀ a : Var → ℚ,
      c.sat a ↔ a (Var.level (t + 1))
        = a (Var.level t) - a (Var.discharge t)
          + i.storage.efficiency * a (Var.charge t) := by
  refine ⟨storage_level_constraint i t, ?_, ?_⟩
  · have hmem : storage_level_constraint i t ∈ forward_loop i := by
      show _ ∈ i.time_index.dropLast.flatMap _
      rw [hidx, dropLast_range]
      exact List.mem_flatMap.mpr ⟨t, List.mem_range.mpr (by omega), by simp⟩
    rw [constraints_mk, define_constraints]
    exact List.mem_append.mpr (Or.inl (List.mem_append.mpr (Or.inr hmem)))
  · intro a
    simp [LpConstraint.sat, storage_level_constraint, LinExpr.eval_add,
      LinExpr.eval_sub, LinExpr.eval_scale, LinExpr.eval_ofVar]

/-- Witness for C3: the two-step scenario at `t = 0`. -/
theorem forward_balance_present_witness :
    exInputs2.time_index = List.range 2 ∧ 0 + 1 < 2
    ∧ ∃ c ∈ (mkScenarioManager exInputs2).lpmodel.constraints, ∀ a : Var → ℚ,
        c.sat a ↔ a (Var.level (0 + 1))
          = a (Var.level 0) - a (Var.discharge 0)
            + exInputs2.storage.efficiency * a (Var.charge 0) :=
  ⟨by decide, by decide, forward_balance_present exInputs2 2 (by decide) 0 (by decide)⟩

/-- C4: for every scenario and every time step `t` of the time index, the
built problem contains the service constraint
`generation_total[t] + discharge[t] - charge[t] ≥ load[t]`, where
`generation_total` is the renewables aggregator's Total column and `load`
the scaled load series. -/
theorem service_constraint_present (i : ScenarioInputs) (t : ℕ)
    (ht : t ∈ i.time_index) :
    ∃ c ∈ (mkScenarioManager i).lpmodel.constraints, ∀ a : Var → ℚ,
      c.sat a ↔ i.renewables.generation_Total t + a (Var.discharge t) - a (Var.charge t)
        ≥ i.load.load t := by
  refine ⟨load_supplied_constraint i t, ?_, ?_⟩
  · have hmem : load_supplied_constraint i t ∈ envelope_loop i :=
      List.mem_flatMap.mpr ⟨t, ht, by simp⟩
    rw [constraints_mk, define_constraints]
    exact List.mem_append.mpr (Or.inr hmem)
  · intro a
    simp [LpConstraint.sat, load_supplied_constraint, LinExpr.eval_add,
      LinExpr.eval_sub, LinExpr.eval_scale, LinExpr.eval_ofVar, LinExpr.eval_ofConst]

theorem lookup_cons_kv {β : Type} (k a : String) (b : β) (l : List (String × β)) :
    List.lookup k ((a, b) :: l) = bif k == a then some b else List.lookup k l := rfl

theorem lookup_mem_of_some {β : Type} (l : List (String × β)) (k : String) (b : β)
    (h : l.lookup k = some b) : (k, b) ∈ l := by
  induction l with
  | nil => simp [List.lookup] at h
  | cons p l ih =>
    obtain ⟨pk, pv⟩ := p
    rw [lookup_cons_kv] at h
    cases hbeq : (k == pk) with
    | true =>
      rw [hbeq, cond_true, Option.some.injEq] at h
      subst h
      have hk : k = pk := beq_iff_eq.mp hbeq
      subst hk
      exact List.mem_cons_self _ _
    | false =>
      rw [hbeq, cond_false] at h
      exact List.mem_cons_of_mem _ (ih h)

theorem lookup_none_of_not_key {β : Type} (l : List (String × β)) (k : String)
    (h : k ∉ l.map Prod.fst) : l.lookup k = none := by
  induction l with
  | nil => rfl
  | cons p l ih =>
    obtain ⟨pk, pv⟩ := p
    simp only [List.map_cons, List.mem_cons] at h
    push_neg at h
    rw [lookup_cons_kv, beq_eq_false_iff_ne.mpr h.1, cond_false]
    exact ih h.2

theorem lookup_append_some {β : Type} (l₁ l₂ : List (String × β)) (k : String) (b : β)
    (h : l₁.lookup k = some b) : (l₁ ++ l₂).lookup k = some b := by
  induction l₁ with
  | nil => simp [List.lookup] at h
  | cons p l ih =>
    obtain ⟨pk, pv⟩ := p
    rw [List.cons_append, lookup_cons_kv]
    rw [lookup_cons_kv] at h
    cases hbeq : (k == pk) with
    | true =>
      rw [hbeq, cond_true] at h
      rw [cond_true]
      exact h
    | false =>
      rw [hbeq, cond_false] at h
      rw [cond_false]
      exact ih h

theorem lookup_append_none {β : Type} (l₁ l₂ : List (String × β)) (k : String)
    (h : l₁.lookup k = none) : (l₁ ++ l₂).lookup k = l₂.lookup k := by
  induction l₁ with
  | nil => rfl
  | cons p l ih =>
    obtain ⟨pk, pv⟩ := p
    rw [List.cons_append, lookup_cons_kv]
    rw [lookup_cons_kv] at h
    cases hbeq : (k == pk) with
    | true =>
      rw [hbeq, cond_true] at h
      exact absurd h (by simp)
    | false =>
      rw [hbeq, cond_false] at h
      rw [cond_false]
      exact ih h

theorem lookup_map_column {β : Type} (caps : List (String × ℚ)) (f : String → ℚ → β)
    (hnd : (caps.map Prod.fst).Nodup) (p : String × ℚ) (hp : p ∈ caps) :
    (caps.map fun q => (q.1, f q.1 q.2)).lookup p.1 = some (f p.1 p.2) := by
  induction caps with
  | nil => simp at hp
  | cons q caps ih =>
    simp only [List.map_cons, List.nodup_cons] at hnd
    rcases List.mem_cons.mp hp with h | h
    · subst h
      rw [List.map_cons, lookup_cons_kv, beq_self_eq_true, cond_true]
    · have hne : p.1 ≠ q.1 := by
        intro he
        exact hnd.1 (he ▸ List.mem_map_of_mem Prod.fst h)
      rw [List.map_cons, lookup_cons_kv, beq_eq_false_iff_ne.mpr hne, cond_false]
      exact ih hnd.2 h

theorem filterMap_id_len (xs : List (Option ℚ)) (h : seriesHasNa xs = false) :
    (xs.filterMap id).length = xs.length := by
  induction xs with
  | nil => simp
  | cons x xs ih =>
    simp only [seriesHasNa, List.any_cons, Bool.or_eq_false_iff] at h
    cases x with
    | none => simp [Option.isNone] at h
    | some v =>
      rw [List.filterMap_cons]
      simp only [id, List.length_cons]
      rw [ih h.2]

theorem mean_some_of_no_na (xs : List (Option ℚ)) (hne : xs ≠ [])
    (h : seriesHasNa xs = false) : ∃ m, seriesMean xs = some m := by
  have hlen : (xs.filterMap id).length = xs.length := filterMap_id_len xs h
  have hpos : ¬(xs.filterMap id).length = 0 := by
    rw [hlen]
    intro h0
    exact hne (List.length_eq_zero.mp h0)
  refine ⟨(xs.filterMap id).sum / ((xs.filterMap id).length : ℚ), ?_⟩
  simp only [seriesMean]
  rw [if_neg hpos]

/-- C8: `verify_inputs` raises exactly when the mean of the load series is at
least the mean of the generation Total column, or the generation table
contains a missing value, or the load series does; otherwise it returns
without error (the conditions never reach the solver: they are asserts). -/
theorem verify_inputs_iff (g : NaTable) (load : List (Option ℚ))
    (hl : load ≠ []) (ht : tableTotal g ≠ []) :
    verify_inputs_raises g load = true ↔
      (∃ lm gm, seriesMean load = some lm ∧ seriesMean (tableTotal g) = some gm ∧ gm ≤ lm)
      ∨ tableHasNa g = true ∨ seriesHasNa load = true := by
  by_cases hg : tableHasNa g = true
  · simp [verify_inputs_raises, hg]
  by_cases hld : seriesHasNa load = true
  · simp [verify_inputs_raises, hld]
  have hgf : tableHasNa g = false := by simpa using hg
  have hldf : seriesHasNa load = false := by simpa using hld
  have hlk : ∃ l, g.lookup "Total" = some l := by
    cases h : g.lookup "Total" with
    | none => exact absurd (by simp [tableTotal, h]) ht
    | some l => exact ⟨l, rfl⟩
  obtain ⟨tot, htot⟩ := hlk
  have htoteq : tableTotal g = tot := by simp [tableTotal, htot]
  have hmemtot : ("Total", tot) ∈ g := lookup_mem_of_some g "Total" tot htot
  have htotNa : seriesHasNa tot = false := by
    by_contra hcon
    have h1 : seriesHasNa tot = true := by simpa using hcon
    have h2 : tableHasNa g = true := by
      simp only [tableHasNa, List.any_eq_true]
      exact ⟨("Total", tot), hmemtot, h1⟩
    simp [h2] at hgf
  obtain ⟨lm, hlm⟩ := mean_some_of_no_na load hl hldf
  obtain ⟨gm, hgm⟩ := mean_some_of_no_na tot (htoteq ▸ ht) htotNa
  rw [htoteq] at ht ⊢
  simp only [verify_inputs_raises, htoteq, hlm, hgm, ltNaN, hgf, hldf,
    Bool.or_false, Bool.not_eq_true', Option.some.injEq]
  constructor
  · intro h
    refine Or.inl ⟨lm, gm, rfl, rfl, ?_⟩
    exact not_lt.mp (by simpa using h)
  · rintro (⟨lm', gm', he1, he2, hle⟩ | h | h)
    · subst he1
      subst he2
      exact decide_eq_false (not_lt.mpr hle)
    · simp at h
    · simp at h

/-- Witness for C8: a one-step table with Total = [1] and load = [2]:
the mean check fails, so `verify_inputs` raises. -/
theorem verify_inputs_iff_witness :
    ([some (2 : ℚ)] : List (Option ℚ)) ≠ []
    ∧ tableTotal [("Solar", [some (1 : ℚ)]), ("Total", [some (1 : ℚ)])] ≠ []
    ∧ (verify_inputs_raises [("Solar", [some (1 : ℚ)]), ("Total", [some (1 : ℚ)])]
          [some (2 : ℚ)] = true ↔
        (∃ lm gm, seriesMean [some (2 : ℚ)] = some lm
          ∧ seriesMean (tableTotal [("Solar", [some (1 : ℚ)]), ("Total", [some (1 : ℚ)])])
              = some gm ∧ gm ≤ lm)
        ∨ tableHasNa [("Solar", [some (1 : ℚ)]), ("Total", [some (1 : ℚ)])] = true
        ∨ seriesHasNa [some (2 : ℚ)] = true) :=
  ⟨by decide, by decide, verify_inputs_iff _ _ (by decide) (by decide)⟩

theorem setEqB_iff (a b : List String) :
    setEqB a b = true ↔ ∀ x, x ∈ a ↔ x ∈ b := by
  simp only [setEqB, Bool.and_eq_true, List.all_eq_true, List.elem_iff]
  constructor
  · rintro ⟨h1, h2⟩ x
    exact ⟨fun hx => h1 x hx, fun hx => h2 x hx⟩
  · intro h
    exact ⟨fun x hx => (h x).mp hx, fun x hx => (h x).mpr hx⟩

/-- C9: `calculate_generation` fails with a validation error when the name
set differs from the capacity keys or `"Total"` is among the names;
otherwise it returns one column per technology, equal to the profile column
scaled by the installed capacity, plus a `"Total"` column holding the
row-wise sum of the technology columns. -/
theorem calculate_generation_spec (names : List String) (caps : List (String × ℚ))
    (profiles : String → ℕ → ℚ) (hnd : (caps.map Prod.fst).Nodup) :
    (¬ ((∀ x, x ∈ names ↔ x ∈ caps.map Prod.fst) ∧ "Total" ∉ names) →
      ∃ e, calculate_generation names caps profiles = .error e)
    ∧ (((∀ x, x ∈ names ↔ x ∈ caps.map Prod.fst) ∧ "Total" ∉ names) →
      ∃ tbl, calculate_generation names caps profiles = .ok tbl
        ∧ (∀ p ∈ caps, ∃ col, tbl.lookup p.1 = some col
            ∧ ∀ t, col t = profiles p.1 t * p.2)
        ∧ (∃ tot, tbl.lookup "Total" = some tot
            ∧ ∀ t, tot t = (caps.map fun p => profiles p.1 t * p.2).sum)) := by
  constructor
  · intro hc
    by_cases hset : setEqB names (caps.map Prod.fst) = true
    · have hTot : "Total" ∈ names := by
        by_contra hcon
        exact hc ⟨(setEqB_iff _ _).mp hset, hcon⟩
      refine ⟨"AssertionError: Total not in names", ?_⟩
      rw [calculate_generation, hset]
      simp [hTot]
    · have hsetf : setEqB names (caps.map Prod.fst) = false := by simpa using hset
      refine ⟨"AssertionError: set(names) == set(capacities.keys())", ?_⟩
      rw [calculate_generation, hsetf]
      rfl
  · rintro ⟨hsets, hTot⟩
    have hset : setEqB names (caps.map Prod.fst) = true := (setEqB_iff _ _).mpr hsets
    have hTot' : names.contains "Total" = false := by simpa using hTot
    have hTotKeys : "Total" ∉ caps.map Prod.fst := fun h => hTot ((hsets "Total").mpr h)
    have hrw : calculate_generation names caps profiles
        = .ok ((caps.map fun p => (p.1, fun t => profiles p.1 t * p.2))
            ++ [("Total", fun t =>
                ((caps.map fun p => (p.1, fun t => profiles p.1 t * p.2)).map
                    fun c => c.2 t).sum)]) := by
      rw [calculate_generation, hset, hTot']
      rfl
    refine ⟨_, hrw, ?_, ?_⟩
    · intro p hp
      refine ⟨fun t => profiles p.1 t * p.2, ?_, fun t => rfl⟩
      exact lookup_append_some _ _ _ _
        (lookup_map_column caps (fun n c => fun t => profiles n t * c) hnd p hp)
    · refine ⟨fun t => ((caps.map fun p => (p.1, fun t => profiles p.1 t * p.2)).map
          fun c => c.2 t).sum, ?_, ?_⟩
      · rw [lookup_append_none _ _ _
          (lookup_none_of_not_key _ _
            (by simpa [List.map_map, Function.comp] using hTotKeys))]
        rw [lookup_cons_kv, beq_self_eq_true, cond_true]
      · intro t
        simp only [List.map_map]
        rfl

/-- Witness for C9: one solar technology with capacity 100 and a constant
half-unit profile. -/
theorem calculate_generation_spec_witness :
    (([("Solar", (100 : ℚ))].map Prod.fst).Nodup)
    ∧ ((∀ x, x ∈ ["Solar"] ↔ x ∈ ([("Solar", (100 : ℚ))].map Prod.fst))
        ∧ "Total" ∉ ["Solar"])
    ∧ (∃ tbl, calculate_generation ["Solar"] [("Solar", (100 : ℚ))] (fun _ _ => 1/2)
          = .ok tbl
        ∧ (∀ p ∈ [("Solar", (100 : ℚ))], ∃ col, tbl.lookup p.1 = some col
            ∧ ∀ t, col t = (fun _ _ => (1/2 : ℚ)) p.1 t * p.2)
        ∧ (∃ tot, tbl.lookup "Total" = some tot
            ∧ ∀ t, tot t = ([("Solar", (100 : ℚ))].map
                fun p => (fun _ _ => (1/2 : ℚ)) p.1 t * p.2).sum)) :=
  ⟨by decide, ⟨fun x => by simp, by decide⟩,
    (calculate_generation_spec ["Solar"] [("Solar", (100 : ℚ))] (fun _ _ => 1/2)
        (by simp)).2 ⟨fun x => by simp, by decide⟩⟩

/-- Witness for C4: the single-step scenario at `t = 0`. -/
theorem service_constraint_present_witness :
    0 ∈ exInputs.time_index
    ∧ ∃ c ∈ (mkScenarioManager exInputs).lpmodel.constraints, ∀ a : Var → ℚ,
        c.sat a ↔ exInputs.renewables.generation_Total 0
            + a (Var.discharge 0) - a (Var.charge 0)
          ≥ exInputs.load.load 0 :=
  ⟨by decide, service_constraint_present exInputs 0 (by decide)⟩

end EnergyStorage
